import Mathlib

/-!
Verification development for the cipherpay-ui client-side shielded-note core.

The definitions below are shallow embeddings of the JavaScript/TypeScript
sources:

* note selection inside createTransaction
  (src/services/CipherPayService.js, lines 309-375);
* the two-output splitter inside executeSingleTransfer
  (src/services/CipherPayService.js, lines 471-539);
* key derivation, envelope encryption/decryption and keypair validation
  (src/lib/e2ee.ts);
* message decryption and account-overview assembly
  (src/services/accountOverviewService.js).

JavaScript BigInt values are modelled as Lean Int (or Nat where the value is
known non-negative), byte arrays as List Nat, exceptions as Except Unit, and
nullable results as Option.  External collaborators (tweetnacl primitives,
base64, JSON, the overview REST endpoint) are not part of this repository and
enter the embedding as function parameters; every control-flow decision made
by the repository code itself is reproduced from the source.
-/

namespace CipherPayUI

/-! ## Note selection (CipherPayService.createTransaction, lines 309-375) -/

/-- A spendable note as seen by the selection logic.  Selection reads only
the amount field (`BigInt(n.amount)`); the remaining note fields are carried
opaquely by the real code and are irrelevant to which notes get picked, so
they are omitted here.  Amounts are non-negative integers. -/
structure SNote where
  amount : Nat
deriving DecidableEq, Repr

/-- Errors thrown by the selection path of createTransaction:
`noSpendableNotes` models the throw at line 322 and `insufficientBalance`
models the throw of the Available-shield-balance-insufficient error at
lines 328 and 365. -/
inductive SelectError where
  | noSpendableNotes
  | insufficientBalance
deriving DecidableEq, Repr

/-- Sum of the amounts of a list of notes: the reduce at line 326. -/
def totalAmount (notes : List SNote) : Nat :=
  (notes.map SNote.amount).sum

/-- The comparator at lines 345-351 orders notes by amount, biggest first.
As a Bool relation for mergeSort (JS array sort is stable, as is mergeSort):
a may stay before b exactly when b.amount is not larger. -/
def amountDescLE (a b : SNote) : Bool :=
  decide (b.amount ≤ a.amount)

/-- The accumulation loop at lines 353-361: push notes in order and stop as
soon as the running total reaches the requested amount. -/
def greedyAccumulate (amount : Nat) (total : Nat) : List SNote → List SNote
  | [] => []
  | n :: rest =>
    if amount ≤ total + n.amount then [n]
    else n :: greedyAccumulate amount (total + n.amount) rest

/-- Note selection of createTransaction (lines 319-366) on the path where no
explicit input note was provided: empty-list check (line 321), total-balance
feasibility check (lines 326-329), first-fit single-note strategy
(lines 331-339 via Array.prototype.find), and the descending greedy
multi-note fallback (lines 341-366) with its final safety re-check. -/
def selectNotes (amount : Nat) (spendable : List SNote) :
    Except SelectError (List SNote) :=
  if spendable.length = 0 then
    .error .noSpendableNotes
  else if totalAmount spendable < amount then
    .error .insufficientBalance
  else
    match spendable.find? (fun n => decide (amount ≤ n.amount)) with
    | some n => .ok [n]
    | none =>
      let sorted := spendable.mergeSort amountDescLE
      let selected := greedyAccumulate amount 0 sorted
      if totalAmount selected < amount then .error .insufficientBalance
      else .ok selected

/-! ## Output splitter (CipherPayService.executeSingleTransfer, lines 471-539) -/

/-- Fixed dust bound declared at line 482 (`const minDust = 1000n`). -/
def minDust : Int := 1000

/-- Outcome record of the split: the two output amounts, the random side
assignment, and the bookkeeping of recipient versus change amounts
(lines 474-539). -/
structure SplitOutcome where
  out1Amount : Int
  out2Amount : Int
  recipientGetsOut1 : Bool
  recipientAmount : Int
  changeAmount : Int
deriving DecidableEq, Repr

/-- Assembly of the eight random bytes into a single 64-bit value
(lines 496-499): repeated shift-left-by-8 and or, which on byte values is
multiplication by 256 plus the byte. -/
def bytesToRandom (bytes : List (Fin 256)) : Nat :=
  bytes.foldl (fun acc b => acc * 256 + b.val) 0

/-- The two-output split computed by executeSingleTransfer (lines 471-539),
as a function of the randomness the code draws: `randomBigInt` is the 64-bit
value built by `bytesToRandom` from 8 uniform random bytes (line 494), and
`coinByte` the extra uniform random byte whose parity picks which output goes
to the recipient (line 507).  On the branch where the transfer amount differs
from the input amount neither random value is read. -/
def computeSplit (inputAmount transferAmount : Int)
    (randomBigInt : Nat) (coinByte : Nat) : SplitOutcome :=
  if transferAmount = inputAmount then
    let maxSplit := inputAmount - minDust
    let p : Int × Int :=
      if maxSplit < minDust then
        (inputAmount / 2, inputAmount - inputAmount / 2)
      else
        let range := maxSplit - minDust + 1
        let out1 := minDust + (randomBigInt : Int) % range
        (out1, inputAmount - out1)
    let side := coinByte % 2 == 0
    { out1Amount := p.1
      out2Amount := p.2
      recipientGetsOut1 := side
      recipientAmount := if side then p.1 else p.2
      changeAmount := if side then p.2 else p.1 }
  else
    { out1Amount := transferAmount
      out2Amount := inputAmount - transferAmount
      recipientGetsOut1 := true
      recipientAmount := transferAmount
      changeAmount := inputAmount - transferAmount }

/-! ## Key derivation (e2ee.ts, lines 43-75) -/

/-- Little-endian serialization loop of bigIntToBytes32 (e2ee.ts lines 43-51):
one step extracts the low byte (`remaining & 0xffn`) and shifts right by 8
bits; the counter is the number of remaining iterations. -/
def bigIntToBytes32Aux : Nat → Nat → List Nat
  | 0, _ => []
  | k + 1, remaining => remaining % 256 :: bigIntToBytes32Aux k (remaining / 256)

/-- bigIntToBytes32 (e2ee.ts lines 43-51): fixed 32 bytes, little-endian. -/
def bigIntToBytes32 (value : Nat) : List Nat :=
  bigIntToBytes32Aux 32 value

/-- The constant max32Bytes at e2ee.ts line 63: BigInt of 64 f hex digits,
that is 2^256 - 1. -/
def max32Bytes : Nat := 2 ^ 256 - 1

/-- Seed computation inside deriveKeypairFromIdentity (e2ee.ts lines 62-65):
reduce the identity scalar modulo max32Bytes, then serialize. -/
def deriveSeedBytes (privKey : Nat) : List Nat :=
  bigIntToBytes32 (privKey % max32Bytes)

/-- Modelled from the spec: little-endian 32-byte serialization stated as the
spec words it, byte i being the i-th base-256 digit.  Present only to compare
the source serialization against the specification text. -/
def specLE32 (value : Nat) : List Nat :=
  (List.range 32).map (fun i => value / 256 ^ i % 256)

/-- Modelled from the spec: KeyDerivation is specified to reduce the scalar
modulo 2^256 before serializing little-endian into 32 bytes. -/
def specSeedBytes (privKey : Nat) : List Nat :=
  specLE32 (privKey % 2 ^ 256)

/-- Base64-encoded keypair record used throughout e2ee.ts. -/
structure KpB64 where
  publicKeyB64 : String
  secretKeyB64 : String
deriving DecidableEq, Repr

/-- deriveKeypairFromIdentity (e2ee.ts lines 57-75).  The external tweetnacl
generator nacl.box.keyPair.fromSecretKey and the base64 encoder u8ToB64 are
outside the repository and enter as pure function parameters; the repository
code computes the seed bytes and feeds them through. -/
def deriveKeypairFromIdentity
    (naclFromSecretKey : List Nat → List Nat × List Nat)
    (u8ToB64f : List Nat → String) (privKey : Nat) : KpB64 :=
  let kp := naclFromSecretKey (deriveSeedBytes privKey)
  { publicKeyB64 := u8ToB64f kp.1, secretKeyB64 := u8ToB64f kp.2 }

/-! ## Keypair validation (e2ee.ts, lines 108-219) -/

/-- Shape of the JSON value stored under the cps.encKeypair.v1 key as read
back at e2ee.ts line 117: either field may be missing. -/
structure StoredShape where
  publicKeyB64 : Option String
  secretKeyB64 : Option String
deriving DecidableEq, Repr

/-- JavaScript truthiness of an optional string field (the guard at e2ee.ts
line 118): a missing field and the empty string are falsy. -/
def jsTruthyStr : Option String → Bool
  | none => false
  | some s => s != ""

/-- First block of ensureValidKeypair (e2ee.ts lines 113-146): try the
keypair stored in localStorage; keep it only if both fields are truthy and
both base64-decode to exactly 32 bytes; on any JSON or base64 failure or
length mismatch fall through (none). -/
def storedKeypair
    (stored : Option String)
    (jsonParseStored : String → Except Unit StoredShape)
    (b64dec : String → Except Unit (List Nat)) : Option KpB64 :=
  match stored with
  | none => none
  | some s =>
    match jsonParseStored s with
    | .error _ => none
    | .ok parsed =>
      if jsTruthyStr parsed.publicKeyB64 && jsTruthyStr parsed.secretKeyB64 then
        match parsed.publicKeyB64, parsed.secretKeyB64 with
        | some pub, some sec =>
          match b64dec pub, b64dec sec with
          | .ok decodedPub, .ok decodedSec =>
            if decodedPub.length = 32 ∧ decodedSec.length = 32 then
              some { publicKeyB64 := pub, secretKeyB64 := sec }
            else none
          | _, _ => none
        | _, _ => none
      else none

/-- Second block of ensureValidKeypair (e2ee.ts lines 148-174): derive the
deterministic keypair from the identity scalar when the identity is present
and its privKey truthy (a zero scalar is falsy in JavaScript); keep the
derived pair only if the base64 round-trip verification at lines 156-158
yields 32 bytes on each side; the try/catch at lines 152-171 turns any throw
into a fall-through. -/
def identityKeypair
    (identityPrivKey : Option Nat)
    (naclFromSecretKey : List Nat → List Nat × List Nat)
    (u8ToB64f : List Nat → String)
    (b64dec : String → Except Unit (List Nat)) : Option KpB64 :=
  match identityPrivKey with
  | none => none
  | some pk =>
    if pk ≠ 0 then
      match b64dec (deriveKeypairFromIdentity naclFromSecretKey u8ToB64f
              pk).publicKeyB64,
          b64dec (deriveKeypairFromIdentity naclFromSecretKey u8ToB64f
              pk).secretKeyB64 with
      | .ok verifyPub, .ok verifySec =>
        if verifyPub.length = 32 ∧ verifySec.length = 32 then
          some (deriveKeypairFromIdentity naclFromSecretKey u8ToB64f pk)
        else none
      | _, _ => none
    else none

/-- Third block of ensureValidKeypair (e2ee.ts lines 176-207): generate a
fresh non-deterministic keypair; the verification at lines 188-203 rethrows
when the base64 round-trip does not give 32 bytes on each side (modelled by
the error result), and returns the fresh pair otherwise. -/
def freshKeypair
    (freshKp : List Nat × List Nat)
    (u8ToB64f : List Nat → String)
    (b64dec : String → Except Unit (List Nat)) : Except Unit KpB64 :=
  match b64dec (u8ToB64f freshKp.1), b64dec (u8ToB64f freshKp.2) with
  | .ok verifyPub, .ok verifySec =>
    if verifyPub.length ≠ 32 ∨ verifySec.length ≠ 32 then .error ()
    else .ok { publicKeyB64 := u8ToB64f freshKp.1,
               secretKeyB64 := u8ToB64f freshKp.2 }
  | _, _ => .error ()

/-- ensureValidKeypair (e2ee.ts lines 108-208) as a function of the stored
localStorage string, the identity scalar, the freshly drawn fallback key
material, and the external primitives.  Storage writes do not influence the
returned value and are not modelled.  The three key sources are tried in the
order of the source: stored, then derived from identity, then fresh. -/
def ensureValidKeypair
    (stored : Option String)
    (jsonParseStored : String → Except Unit StoredShape)
    (b64dec : String → Except Unit (List Nat))
    (identityPrivKey : Option Nat)
    (naclFromSecretKey : List Nat → List Nat × List Nat)
    (freshKp : List Nat × List Nat)
    (u8ToB64f : List Nat → String) : Except Unit KpB64 :=
  match storedKeypair stored jsonParseStored b64dec with
  | some kp => .ok kp
  | none =>
    match identityKeypair identityPrivKey naclFromSecretKey u8ToB64f b64dec with
    | some kp => .ok kp
    | none => freshKeypair freshKp u8ToB64f b64dec

/-- getOrCreateLocalEncKeypair (e2ee.ts lines 210-215) simply delegates to
ensureValidKeypair. -/
def getOrCreateLocalEncKeypair
    (stored : Option String)
    (jsonParseStored : String → Except Unit StoredShape)
    (b64dec : String → Except Unit (List Nat))
    (identityPrivKey : Option Nat)
    (naclFromSecretKey : List Nat → List Nat × List Nat)
    (freshKp : List Nat × List Nat)
    (u8ToB64f : List Nat → String) : Except Unit KpB64 :=
  ensureValidKeypair stored jsonParseStored b64dec identityPrivKey
    naclFromSecretKey freshKp u8ToB64f

/-- getLocalEncPublicKeyB64 (e2ee.ts lines 217-219): the publicKeyB64 field
of the validated keypair. -/
def getLocalEncPublicKeyB64
    (stored : Option String)
    (jsonParseStored : String → Except Unit StoredShape)
    (b64dec : String → Except Unit (List Nat))
    (identityPrivKey : Option Nat)
    (naclFromSecretKey : List Nat → List Nat × List Nat)
    (freshKp : List Nat × List Nat)
    (u8ToB64f : List Nat → String) : Except Unit String :=
  (ensureValidKeypair stored jsonParseStored b64dec identityPrivKey
    naclFromSecretKey freshKp u8ToB64f).map KpB64.publicKeyB64

/-! ## Encrypted envelope (e2ee.ts, lines 221-286) -/

/-- Parsed envelope record (e2ee.ts lines 245-250).  A field that JSON.parse
leaves missing surfaces as a string whose base64 decoding throws, which the
b64dec parameter models. -/
structure Envelope where
  v : Int
  epk : String
  n : String
  ct : String
deriving DecidableEq, Repr

/-- encryptForRecipient (e2ee.ts lines 221-234).  The ephemeral keypair and
the nonce are the random values drawn at lines 223-224, passed explicitly;
tweetnacl seal, JSON stringify and the base64 encoders are external and enter
as parameters.  The function has no try/catch, so a base64 failure on the
recipient key propagates as an error. -/
def encryptForRecipient {α : Type}
    (b64dec : String → Except Unit (List Nat))
    (naclBoxSeal : List Nat → List Nat → List Nat → List Nat → List Nat)
    (ptEncode : α → List Nat)
    (stringifyEnv : Envelope → String)
    (btoaFn : String → String)
    (u8ToB64f : List Nat → String)
    (ephPk ephSk nonce : List Nat)
    (recipientPubB64 : String) (obj : α) : Except Unit String := do
  let recipientPk ← b64dec recipientPubB64
  let pt := ptEncode obj
  let ct := naclBoxSeal pt nonce recipientPk ephSk
  let env : Envelope :=
    { v := 1, epk := u8ToB64f ephPk, n := u8ToB64f nonce, ct := u8ToB64f ct }
  return btoaFn (stringifyEnv env)

/-- Ciphertext computed at e2ee.ts line 226 for given primitives and inputs:
nacl.box of the encoded plaintext under the nonce, recipient public key and
ephemeral secret key. -/
def sealedCt {α : Type}
    (naclBoxSeal : List Nat → List Nat → List Nat → List Nat → List Nat)
    (ptEncode : α → List Nat)
    (nonce recipientPk ephSk : List Nat) (obj : α) : List Nat :=
  naclBoxSeal (ptEncode obj) nonce recipientPk ephSk

/-- Envelope record built at e2ee.ts lines 227-232. -/
def builtEnvelope {α : Type}
    (naclBoxSeal : List Nat → List Nat → List Nat → List Nat → List Nat)
    (ptEncode : α → List Nat)
    (u8ToB64f : List Nat → String)
    (ephPk ephSk nonce recipientPk : List Nat) (obj : α) : Envelope :=
  { v := 1
    epk := u8ToB64f ephPk
    n := u8ToB64f nonce
    ct := u8ToB64f (sealedCt naclBoxSeal ptEncode nonce recipientPk ephSk obj) }

/-- Body of decryptFromSenderForMe (e2ee.ts lines 242-280), the code inside
the try block: the steps that can throw live in Except, and the explicit
return-null sites (version check at line 253, failed open at line 272) yield
a pure none.  `localKeypair` stands for the getOrCreateLocalEncKeypair call
at line 266, which can itself throw. -/
def decryptBody {α : Type}
    (atobFn : String → Except Unit String)
    (jsonParseEnv : String → Except Unit Envelope)
    (b64dec : String → Except Unit (List Nat))
    (localKeypair : Except Unit KpB64)
    (naclBoxOpen : List Nat → List Nat → List Nat → List Nat → Option (List Nat))
    (ptDecode : List Nat → Except Unit α)
    (ciphertextB64 : String) : Except Unit (Option α) := do
  let decoded ← atobFn ciphertextB64
  let env ← jsonParseEnv decoded
  if env.v ≠ 1 then
    return none
  else
    let epk ← b64dec env.epk
    let nonce ← b64dec env.n
    let ct ← b64dec env.ct
    let kp ← localKeypair
    let sk ← b64dec kp.secretKeyB64
    match naclBoxOpen ct nonce epk sk with
    | none => return none
    | some pt => do
      let result ← ptDecode pt
      return some result

/-- decryptFromSenderForMe (e2ee.ts lines 236-286): the catch-all at
line 281 turns every thrown error into the null result. -/
def decryptFromSenderForMe {α : Type}
    (atobFn : String → Except Unit String)
    (jsonParseEnv : String → Except Unit Envelope)
    (b64dec : String → Except Unit (List Nat))
    (localKeypair : Except Unit KpB64)
    (naclBoxOpen : List Nat → List Nat → List Nat → List Nat → Option (List Nat))
    (ptDecode : List Nat → Except Unit α)
    (ciphertextB64 : String) : Option α :=
  match decryptBody atobFn jsonParseEnv b64dec localKeypair naclBoxOpen
      ptDecode ciphertextB64 with
  | .error _ => none
  | .ok r => r

/-! ## Ledger reconciler (accountOverviewService.js, lines 114-274) -/

/-- One fetched message as consumed by decryptMessages
(accountOverviewService.js line 117); only id and ciphertext are read. -/
structure DMsg where
  id : Nat
  ciphertext : String
deriving DecidableEq, Repr

/-- Decrypted payload shape as tested at line 135: the payload is kept only
when its note field is present (truthy). -/
structure DPayload (RawNote : Type) where
  note : Option RawNote

/-- decryptMessages (accountOverviewService.js lines 114-172): the loop over
fetched messages; decryptFn models the decryptFromSenderForMe call at
line 124 (null on failure) and parseNote the BigInt field conversions at
lines 137-158, whose throw the per-message catch at line 164 absorbs.  Each
successful message pushes exactly one note; every failing message is skipped
and the loop continues. -/
def decryptMessagesList {RawNote Note : Type}
    (decryptFn : String → Option (DPayload RawNote))
    (parseNote : RawNote → Except Unit Note) :
    List DMsg → List Note
  | [] => []
  | msg :: rest =>
    let tail := decryptMessagesList decryptFn parseNote rest
    match decryptFn msg.ciphertext with
    | some payload =>
      match payload.note with
      | some raw =>
        match parseNote raw with
        | .ok note => note :: tail
        | .error _ => tail
      | none => tail
    | none => tail

/-- Outcome of the per-message try block of decryptMessages for a single
message: some note exactly when decryption succeeds, the note field is
present, and the numeric conversions do not throw. -/
def messageYield {RawNote Note : Type}
    (decryptFn : String → Option (DPayload RawNote))
    (parseNote : RawNote → Except Unit Note)
    (msg : DMsg) : Option Note :=
  match decryptFn msg.ciphertext with
  | none => none
  | some payload =>
    match payload.note with
    | none => none
    | some raw =>
      match parseNote raw with
      | .error _ => none
      | .ok note => some note

/-- Annotated note entry of the account overview response
(accountOverviewService.js lines 222-236). -/
structure OverviewEntry (Note : Type) where
  note : Note
  nullifierHex : String
  isSpent : Bool
  amount : Int

/-- Account overview record (lines 218-237 and 261-266). -/
structure Overview (Note : Type) where
  shieldedBalance : Int
  spendableNotes : Nat
  totalNotes : Nat
  notes : List (OverviewEntry Note)

/-- Empty overview literal returned at lines 261-266 when no notes could be
decrypted. -/
def emptyOverview (Note : Type) : Overview Note :=
  { shieldedBalance := 0, spendableNotes := 0, totalNotes := 0, notes := [] }

/-- fetchAccountOverview (accountOverviewService.js lines 245-274) after the
message fetch: `messages` is the messages field of the fetch result (the
`messages || []` default at line 255 handles its absence), and
computeOverviewFn models the computeAccountOverview call at line 270, the
POST to the external overview service. -/
def fetchAccountOverview {RawNote Note : Type}
    (decryptFn : String → Option (DPayload RawNote))
    (parseNote : RawNote → Except Unit Note)
    (computeOverviewFn : List Note → Overview Note)
    (messages : Option (List DMsg)) : Overview Note :=
  let notes := decryptMessagesList decryptFn parseNote (messages.getD [])
  if notes.length = 0 then emptyOverview Note
  else computeOverviewFn notes

/-! ## Helper lemmas -/

theorem totalAmount_nil : totalAmount [] = 0 := rfl

theorem totalAmount_cons (n : SNote) (l : List SNote) :
    totalAmount (n :: l) = n.amount + totalAmount l := by
  simp [totalAmount]

theorem totalAmount_of_perm {l l' : List SNote} (h : l.Perm l') :
    totalAmount l = totalAmount l' :=
  (h.map SNote.amount).sum_eq

theorem greedyAccumulate_sum (A : Nat) (l : List SNote) :
    ∀ total, A ≤ total + totalAmount l →
      A ≤ total + totalAmount (greedyAccumulate A total l) := by
  induction l with
  | nil => intro total h; simpa [greedyAccumulate] using h
  | cons n rest ih =>
    intro total h
    by_cases hc : A ≤ total + n.amount
    · rw [greedyAccumulate, if_pos hc, totalAmount_cons, totalAmount_nil]
      omega
    · rw [greedyAccumulate, if_neg hc, totalAmount_cons]
      have h2 : A ≤ (total + n.amount) + totalAmount rest := by
        rw [totalAmount_cons] at h; omega
      have h3 := ih (total + n.amount) h2
      omega

theorem greedyAccumulate_ne_nil (A total : Nat) (n : SNote) (l : List SNote) :
    greedyAccumulate A total (n :: l) ≠ [] := by
  by_cases hc : A ≤ total + n.amount <;> simp [greedyAccumulate, hc]

/-! ## Claim theorems: note selection -/

/-- C1, counterexample to the claim as stated: with requested amount 1 and
an empty spendable list the total (0) is below the request, but selection
fails with the distinct no-spendable-notes error of line 322, not with the
InsufficientBalance error. -/
theorem selectNotes_empty_list_cex :
    0 < 1 ∧ totalAmount [] < 1 ∧
      selectNotes 1 [] = .error .noSpendableNotes ∧
      selectNotes 1 [] ≠ .error .insufficientBalance := by
  refine ⟨Nat.one_pos, by simp [totalAmount], rfl, ?_⟩
  intro h
  rw [show selectNotes 1 [] = .error .noSpendableNotes from rfl] at h
  exact SelectError.noConfusion (Except.error.inj h)

/-- C1 (amended): for every positive requested amount A and every NON-EMPTY
list of spendable notes, selection fails with InsufficientBalance when the
total spendable amount is below A, and otherwise succeeds with a non-empty
selection whose amounts sum to at least A.  (On the empty list the code
fails earlier with a distinct no-spendable-notes error.) -/
theorem selectNotes_feasibility (A : Nat) (spendable : List SNote)
    (hA : 0 < A) (hne : spendable ≠ []) :
    (totalAmount spendable < A →
      selectNotes A spendable = .error .insufficientBalance) ∧
    (A ≤ totalAmount spendable →
      ∃ sel, selectNotes A spendable = .ok sel ∧ sel ≠ [] ∧
        A ≤ totalAmount sel) := by
  have hlen : ¬ spendable.length = 0 := by
    simpa [List.length_eq_zero] using hne
  constructor
  · intro hlt
    rw [selectNotes, if_neg hlen, if_pos hlt]
  · intro hge
    have hnotlt : ¬ totalAmount spendable < A := not_lt.mpr hge
    rcases hfind : spendable.find? (fun n => decide (A ≤ n.amount)) with _ | n
    · -- greedy multi-note branch
      have hperm : (spendable.mergeSort amountDescLE).Perm spendable :=
        List.mergeSort_perm spendable amountDescLE
      have hsum : totalAmount (spendable.mergeSort amountDescLE) =
          totalAmount spendable := totalAmount_of_perm hperm
      have hgood : A ≤ 0 + totalAmount
          (greedyAccumulate A 0 (spendable.mergeSort amountDescLE)) := by
        apply greedyAccumulate_sum
        rw [hsum]; omega
      rw [Nat.zero_add] at hgood
      have hsortne : spendable.mergeSort amountDescLE ≠ [] := by
        intro hnil
        have := hperm.length_eq
        rw [hnil] at this
        exact hne (List.length_eq_zero.mp this.symm)
      refine ⟨greedyAccumulate A 0 (spendable.mergeSort amountDescLE), ?_, ?_, hgood⟩
      · rw [selectNotes, if_neg hlen, if_neg hnotlt, hfind]
        simp only []
        rw [if_neg (not_lt.mpr hgood)]
      · rcases hsort : spendable.mergeSort amountDescLE with _ | ⟨m, rest⟩
        · exact absurd hsort hsortne
        · exact greedyAccumulate_ne_nil A 0 m rest
    · -- single-note branch
      have hAn : A ≤ n.amount := by
        have := List.find?_some hfind
        simpa using this
      refine ⟨[n], ?_, by simp, ?_⟩
      · rw [selectNotes, if_neg hlen, if_neg hnotlt, hfind]
      · rw [totalAmount_cons, totalAmount_nil]; omega

/-- C1 witness: the multi-note example of the spec, notes 10, 20, 25 and
target 40, succeeds with a non-empty selection of total at least 40. -/
theorem selectNotes_feasibility_witness :
    ∃ sel, selectNotes 40 [⟨10⟩, ⟨20⟩, ⟨25⟩] = .ok sel ∧ sel ≠ [] ∧
      40 ≤ totalAmount sel :=
  (selectNotes_feasibility 40 [⟨10⟩, ⟨20⟩, ⟨25⟩] (by decide)
    (by decide)).2 (by decide)

/-- C4, counterexample to the claim as stated: with notes of amounts
30, 80, 50 in that order and target 50, selection returns the note of
amount 80 (the first one whose amount reaches the target, found by
Array.prototype.find at line 332), not the note of amount 50. -/
theorem selectNotes_first_fit_cex :
    selectNotes 50 [⟨30⟩, ⟨80⟩, ⟨50⟩] = .ok [⟨80⟩] ∧
      [(⟨80⟩ : SNote)] ≠ [⟨50⟩] := by
  constructor
  · rfl
  · decide

/-- C4 (amended): whenever some note in the list has amount at least A, the
selector deterministically picks exactly one note, namely the FIRST note in
input order whose amount is at least A; on the inputs 30, 80, 50 with target
50 that is the note of amount 80. -/
theorem selectNotes_first_fit (A : Nat) (spendable : List SNote) (n : SNote)
    (hfind : spendable.find? (fun m => decide (A ≤ m.amount)) = some n) :
    selectNotes A spendable = .ok [n] := by
  have hmem : n ∈ spendable := List.mem_of_find?_eq_some hfind
  have hAn : A ≤ n.amount := by
    have := List.find?_some hfind
    simpa using this
  have hlen : ¬ spendable.length = 0 := by
    intro h
    rw [List.length_eq_zero] at h
    subst h
    cases hmem
  have hsum : A ≤ totalAmount spendable := by
    have : n.amount ≤ totalAmount spendable :=
      List.single_le_sum (fun x _ => Nat.zero_le x) _
        (List.mem_map_of_mem SNote.amount hmem)
    omega
  rw [selectNotes, if_neg hlen, if_neg (not_lt.mpr hsum), hfind]

/-- C4 witness: the amended rule applied to the concrete input of the spec
example. -/
theorem selectNotes_first_fit_witness :
    selectNotes 50 [⟨30⟩, ⟨80⟩, ⟨50⟩] = .ok [⟨80⟩] :=
  selectNotes_first_fit 50 [⟨30⟩, ⟨80⟩, ⟨50⟩] ⟨80⟩ (by decide)

/-! ## Claim theorems: output splitter -/

/-- C2: on the branch where the transfer amount T is strictly below the input
note amount N the splitter is deterministic: out1 = T goes to the recipient
and out2 = N - T returns to the sender as change, and the outcome is the same
for every value of the random draws (none is consumed). -/
theorem computeSplit_direct (N T : Int) (r c r' c' : Nat)
    (h0 : 0 < T) (hTN : T < N) :
    computeSplit N T r c =
      { out1Amount := T, out2Amount := N - T, recipientGetsOut1 := true,
        recipientAmount := T, changeAmount := N - T } ∧
    computeSplit N T r c = computeSplit N T r' c' := by
  have hne : T ≠ N := ne_of_lt hTN
  constructor <;> simp [computeSplit, hne]

/-- C2 witness: input note 100 and transfer 30 give recipient 30 and change
70, identically across distinct random draws. -/
theorem computeSplit_direct_witness :
    computeSplit 100 30 0 0 =
      { out1Amount := 30, out2Amount := 70, recipientGetsOut1 := true,
        recipientAmount := 30, changeAmount := 70 } ∧
    computeSplit 100 30 0 0 = computeSplit 100 30 7 1 := by
  have h := computeSplit_direct 100 30 0 0 7 1 (by decide) (by decide)
  exact ⟨by rw [h.1]; norm_num, h.2⟩

set_option maxRecDepth 10000 in
theorem coin_parity_balanced :
    ((Finset.range 256).filter (fun b => b % 2 = 0)).card =
      ((Finset.range 256).filter (fun b => ¬ b % 2 = 0)).card := by decide

/-- C3, counterexample to the claim as stated.  First part: for input amount
2002 (equal transfer), the split range is [1000, 1002] of size 3, and since
3 does not divide 2^64 the modulo reduction at line 501 is biased: the split
point 1000 arises for strictly more values of the 64-bit random draw than
1001, so out1 is NOT uniformly distributed over the range.  Second part: for
input amount 3 (below twice the dust bound) the outputs are 1 and 2, so the
note is not split exactly in half. -/
theorem computeSplit_exact_cex :
    ((Finset.range (2 ^ 64)).filter
        (fun r => (computeSplit 2002 2002 r 0).out1Amount = 1000)).card ≠
      ((Finset.range (2 ^ 64)).filter
        (fun r => (computeSplit 2002 2002 r 0).out1Amount = 1001)).card ∧
    (computeSplit 3 3 0 0).out1Amount = 1 ∧
    (computeSplit 3 3 0 0).out2Amount = 2 := by
  refine ⟨?_, by decide, by decide⟩
  have hpred : ∀ v : Int, ∀ m : Nat,
      ((computeSplit 2002 2002 m 0).out1Amount = v) ↔ ((m : Int) % 3 = v - 1000) := by
    intro v m
    simp only [computeSplit, minDust]
    norm_num
    omega
  have hcount : ∀ v : Nat, v < 3 →
      ((Finset.range (2 ^ 64)).filter
        (fun r : Nat => (r : Int) % 3 = (v : Int))).card =
        2 ^ 64 / 3 + if v < 2 ^ 64 % 3 then 1 else 0 := by
    intro v hv
    have h := Nat.count_modEq_card (2 ^ 64) (show 0 < 3 by norm_num) v
    rw [Nat.count_eq_card_filter_range] at h
    have heq : ((Finset.range (2 ^ 64)).filter (fun x => x ≡ v [MOD 3])) =
        (Finset.range (2 ^ 64)).filter
          (fun r : Nat => (r : Int) % 3 = (v : Int)) := by
      apply Finset.filter_congr
      intro x _
      simp only [Nat.ModEq, Nat.mod_eq_of_lt hv]
      omega
    rw [heq] at h
    rw [h, Nat.mod_eq_of_lt hv]
  have h0 : ((Finset.range (2 ^ 64)).filter
      (fun r => (computeSplit 2002 2002 r 0).out1Amount = 1000)).card =
      2 ^ 64 / 3 + 1 := by
    have heq : ((Finset.range (2 ^ 64)).filter
        (fun r => (computeSplit 2002 2002 r 0).out1Amount = 1000)) =
        (Finset.range (2 ^ 64)).filter
          (fun r : Nat => (r : Int) % 3 = ((0 : Nat) : Int)) := by
      apply Finset.filter_congr
      intro x _
      rw [hpred 1000 x]
      norm_num
    rw [heq, hcount 0 (by norm_num)]
    norm_num
  have h1 : ((Finset.range (2 ^ 64)).filter
      (fun r => (computeSplit 2002 2002 r 0).out1Amount = 1001)).card =
      2 ^ 64 / 3 := by
    have heq : ((Finset.range (2 ^ 64)).filter
        (fun r => (computeSplit 2002 2002 r 0).out1Amount = 1001)) =
        (Finset.range (2 ^ 64)).filter
          (fun r : Nat => (r : Int) % 3 = ((1 : Nat) : Int)) := by
      apply Finset.filter_congr
      intro x _
      rw [hpred 1001 x]
      norm_num
    rw [heq, hcount 1 (by norm_num)]
    norm_num
  rw [h0, h1]
  omega

/-- C3 (amended): in the exact-match case T = N the splitter always
preserves the total (out1 + out2 = N and recipient + change = N for every
random draw); with the fixed dust bound of 1000, when N is at least twice
the dust bound the split point is out1 = minDust + (r mod (N - 2*minDust + 1))
for the 64-bit random value r, hence always within [minDust, N - minDust]
(uniform only up to the modulo bias exhibited by the counterexample); when N
is below twice the dust bound the outputs are the floor and ceiling halves
of N; and the coin that assigns the recipient side is the parity of an
independent uniform random byte, which is exactly unbiased. -/
theorem computeSplit_exact (N : Int) (r c : Nat) (hN : 0 < N) :
    ((computeSplit N N r c).recipientAmount +
        (computeSplit N N r c).changeAmount = N) ∧
    ((computeSplit N N r c).out1Amount +
        (computeSplit N N r c).out2Amount = N) ∧
    (2 * minDust ≤ N →
      (computeSplit N N r c).out1Amount =
          minDust + (r : Int) % (N - 2 * minDust + 1) ∧
      minDust ≤ (computeSplit N N r c).out1Amount ∧
      (computeSplit N N r c).out1Amount ≤ N - minDust) ∧
    (N < 2 * minDust →
      (computeSplit N N r c).out1Amount = N / 2 ∧
      (computeSplit N N r c).out2Amount = N - N / 2) ∧
    ((computeSplit N N r c).recipientGetsOut1 = (c % 2 == 0)) ∧
    ((Finset.range 256).filter (fun b => b % 2 = 0)).card =
      ((Finset.range 256).filter (fun b => ¬ b % 2 = 0)).card := by
  have hmod_nonneg : ∀ d : Int, 0 < d → 0 ≤ (r : Int) % d := by
    intro d hd
    exact Int.emod_nonneg _ (ne_of_gt hd)
  have hmod_lt : ∀ d : Int, 0 < d → (r : Int) % d < d := by
    intro d hd
    exact Int.emod_lt_of_pos _ hd
  by_cases hedge : N - minDust < minDust
  · -- half-split branch
    refine ⟨?_, ?_, ?_, ?_, ?_, coin_parity_balanced⟩
    · by_cases hside : c % 2 == 0 <;>
        simp [computeSplit, hedge, hside]
    · simp [computeSplit, hedge]
    · intro habs; rw [minDust] at hedge habs; omega
    · intro hsmall
      constructor <;> simp [computeSplit, hedge]
    · simp [computeSplit, hedge]
  · -- random-split branch
    have hrange : (0 : Int) < N - minDust - minDust + 1 := by
      rw [minDust] at hedge ⊢; omega
    have hre : N - minDust - minDust + 1 = N - 2 * minDust + 1 := by ring
    refine ⟨?_, ?_, ?_, ?_, ?_, coin_parity_balanced⟩
    · by_cases hside : c % 2 == 0 <;>
        simp [computeSplit, hedge, hside]
    · simp [computeSplit, hedge]
    · intro hbig
      have h1 := hmod_nonneg _ hrange
      have h2 := hmod_lt _ hrange
      refine ⟨?_, ?_, ?_⟩
      · simp [computeSplit, hedge]
        rw [hre]
      · simp [computeSplit, hedge]
        omega
      · simp [computeSplit, hedge]
        rw [minDust] at h2 ⊢
        omega
    · intro hsmall; rw [minDust] at hedge hsmall; omega
    · simp [computeSplit, hedge]

/-- C3 witness: input 2002 with transfer 2002 at random draw 5 and coin
byte 2: totals are preserved and the split point is 1000 + (5 mod 3). -/
theorem computeSplit_exact_witness :
    (computeSplit 2002 2002 5 2).recipientAmount +
        (computeSplit 2002 2002 5 2).changeAmount = 2002 ∧
    (computeSplit 2002 2002 5 2).out1Amount =
        minDust + (5 : Int) % (2002 - 2 * minDust + 1) := by
  have h := computeSplit_exact 2002 5 2 (by decide)
  exact ⟨h.1, (h.2.2.1 (by decide)).1⟩

/-! ## Claim theorems: key derivation -/

theorem bigIntToBytes32Aux_eq (k : Nat) :
    ∀ v, bigIntToBytes32Aux k v =
      (List.range k).map (fun i => v / 256 ^ i % 256) := by
  induction k with
  | zero => intro v; simp [bigIntToBytes32Aux]
  | succ k ih =>
    intro v
    rw [List.range_succ_eq_map, List.map_cons, List.map_map]
    show v % 256 :: bigIntToBytes32Aux k (v / 256) = _
    rw [ih (v / 256)]
    refine congrArg₂ List.cons (by simp) ?_
    refine List.map_congr_left ?_
    intro i _
    show v / 256 / 256 ^ i % 256 = _
    rw [Nat.div_div_eq_div_mul]
    simp [Function.comp, pow_succ]
    ring_nf

/-- C5, counterexample to the claim as stated: the code reduces the scalar
modulo max32Bytes = 2^256 - 1 (line 63: 64 f hex digits), not modulo 2^256.
At the scalar 2^256 - 1 the source seed is the all-zero byte string while
the claimed mod-2^256 reduction would serialize to 32 bytes of 0xff. -/
theorem deriveSeedBytes_cex :
    deriveSeedBytes (2 ^ 256 - 1) ≠ specSeedBytes (2 ^ 256 - 1) := by decide

/-- C5 (amended): key derivation reduces the scalar modulo 2^256 - 1 (not
2^256), serializes the result little-endian into exactly 32 bytes (byte i is
base-256 digit i), and feeds those bytes to the deterministic external
generator, so the derived keypair is a pure function of the scalar. -/
theorem deriveSeedBytes_amended (S : Nat)
    (naclFromSecretKey : List Nat → List Nat × List Nat)
    (u8ToB64f : List Nat → String) :
    deriveSeedBytes S = specLE32 (S % max32Bytes) ∧
    (deriveSeedBytes S).length = 32 ∧
    deriveKeypairFromIdentity naclFromSecretKey u8ToB64f S =
      { publicKeyB64 :=
          u8ToB64f (naclFromSecretKey (specLE32 (S % max32Bytes))).1,
        secretKeyB64 :=
          u8ToB64f (naclFromSecretKey (specLE32 (S % max32Bytes))).2 } := by
  have h : deriveSeedBytes S = specLE32 (S % max32Bytes) := by
    rw [deriveSeedBytes, bigIntToBytes32, specLE32]
    exact bigIntToBytes32Aux_eq 32 (S % max32Bytes)
  refine ⟨h, ?_, ?_⟩
  · rw [h]; simp [specLE32]
  · rw [deriveKeypairFromIdentity, h]

/-! ## Claim theorems: encrypted envelope -/

theorem except_bind_ok {ε α β : Type} (a : α) (f : α → Except ε β) :
    (Except.ok a >>= f : Except ε β) = f a := rfl

theorem except_bind_error {ε α β : Type} (e : ε) (f : α → Except ε β) :
    (Except.error e >>= f : Except ε β) = Except.error e := rfl

/-- C6: decryptFromSenderForMe never surfaces a thrown error (the catch-all
at line 281 maps every throw, including base64 and JSON parse errors, to the
null result); it returns none when the outer base64 decode throws, when the
envelope JSON does not parse, and when the envelope version differs from 1;
and it returns a non-null object only when every stage succeeded, in
particular only when nacl.box.open authenticated the ciphertext with the
local secret key and the plaintext parsed. -/
theorem decryptFromSenderForMe_failure_modes {α : Type}
    (atobFn : String → Except Unit String)
    (jsonParseEnv : String → Except Unit Envelope)
    (b64dec : String → Except Unit (List Nat))
    (localKeypair : Except Unit KpB64)
    (naclBoxOpen : List Nat → List Nat → List Nat → List Nat → Option (List Nat))
    (ptDecode : List Nat → Except Unit α)
    (s : String) :
    (∀ e, decryptBody atobFn jsonParseEnv b64dec localKeypair naclBoxOpen
        ptDecode s = .error e →
      decryptFromSenderForMe atobFn jsonParseEnv b64dec localKeypair
        naclBoxOpen ptDecode s = none) ∧
    (atobFn s = .error () →
      decryptFromSenderForMe atobFn jsonParseEnv b64dec localKeypair
        naclBoxOpen ptDecode s = none) ∧
    (∀ d, atobFn s = .ok d → jsonParseEnv d = .error () →
      decryptFromSenderForMe atobFn jsonParseEnv b64dec localKeypair
        naclBoxOpen ptDecode s = none) ∧
    (∀ d env, atobFn s = .ok d → jsonParseEnv d = .ok env → env.v ≠ 1 →
      decryptFromSenderForMe atobFn jsonParseEnv b64dec localKeypair
        naclBoxOpen ptDecode s = none) ∧
    (∀ p, decryptFromSenderForMe atobFn jsonParseEnv b64dec localKeypair
        naclBoxOpen ptDecode s = some p →
      ∃ d env epk nonce ct kp sk pt,
        atobFn s = .ok d ∧ jsonParseEnv d = .ok env ∧ env.v = 1 ∧
        b64dec env.epk = .ok epk ∧ b64dec env.n = .ok nonce ∧
        b64dec env.ct = .ok ct ∧ localKeypair = .ok kp ∧
        b64dec kp.secretKeyB64 = .ok sk ∧
        naclBoxOpen ct nonce epk sk = some pt ∧ ptDecode pt = .ok p) := by
  refine ⟨?_, ?_, ?_, ?_, ?_⟩
  · intro e he
    rw [decryptFromSenderForMe, he]
  · intro ha
    rw [decryptFromSenderForMe, decryptBody, ha, except_bind_error]
  · intro d ha hj
    rw [decryptFromSenderForMe, decryptBody, ha, except_bind_ok, hj,
      except_bind_error]
  · intro d env ha hj hv
    rw [decryptFromSenderForMe, decryptBody, ha, except_bind_ok, hj,
      except_bind_ok, if_pos hv]
    rfl
  · intro p hp
    rw [decryptFromSenderForMe] at hp
    rcases hbody : decryptBody atobFn jsonParseEnv b64dec localKeypair
        naclBoxOpen ptDecode s with e | r
    · rw [hbody] at hp; cases hp
    rw [hbody] at hp
    subst hp
    rw [decryptBody] at hbody
    rcases ha : atobFn s with u | d
    · rw [ha, except_bind_error] at hbody; cases hbody
    rw [ha, except_bind_ok] at hbody
    rcases hj : jsonParseEnv d with u | env
    · rw [hj, except_bind_error] at hbody; cases hbody
    rw [hj, except_bind_ok] at hbody
    by_cases hv : env.v ≠ 1
    · rw [if_pos hv] at hbody
      exact Option.noConfusion (Except.ok.inj hbody)
    rw [if_neg hv] at hbody
    push_neg at hv
    rcases he : b64dec env.epk with u | epk
    · rw [he, except_bind_error] at hbody; cases hbody
    rw [he, except_bind_ok] at hbody
    rcases hn : b64dec env.n with u | nonce
    · rw [hn, except_bind_error] at hbody; cases hbody
    rw [hn, except_bind_ok] at hbody
    rcases hc : b64dec env.ct with u | ct
    · rw [hc, except_bind_error] at hbody; cases hbody
    rw [hc, except_bind_ok] at hbody
    rcases hk : localKeypair with u | kp
    · rw [hk, except_bind_error] at hbody; cases hbody
    rw [hk, except_bind_ok] at hbody
    rcases hs : b64dec kp.secretKeyB64 with u | sk
    · rw [hs, except_bind_error] at hbody; cases hbody
    rw [hs, except_bind_ok] at hbody
    rcases ho : naclBoxOpen ct nonce epk sk with _ | pt
    · rw [ho] at hbody
      exact Option.noConfusion (Except.ok.inj hbody)
    rw [ho] at hbody
    have hbody2 : (do
        let result ← ptDecode pt
        pure (some result) : Except Unit (Option α)) = Except.ok (some p) := hbody
    rcases hq : ptDecode pt with u | q
    · rw [hq, except_bind_error] at hbody2; cases hbody2
    rw [hq, except_bind_ok] at hbody2
    have hqp : q = p := by
      have h1 := Except.ok.inj hbody2
      exact Option.some.inj h1
    subst hqp
    exact ⟨d, env, epk, nonce, ct, kp, sk, pt, rfl, hj, hv, he, hn, hc,
      rfl, hs, ho, hq⟩

/-- C6 witness: with a base64 decoder that throws, decryption returns the
null result. -/
theorem decryptFromSenderForMe_failure_modes_witness :
    decryptFromSenderForMe (α := Nat) (fun _ => .error ())
      (fun _ => .ok { v := 1, epk := "", n := "", ct := "" })
      (fun _ => .ok []) (.ok { publicKeyB64 := "", secretKeyB64 := "" })
      (fun _ _ _ _ => none) (fun _ => .ok 0) "x" = none :=
  (decryptFromSenderForMe_failure_modes (fun _ => .error ())
    (fun _ => .ok { v := 1, epk := "", n := "", ct := "" })
    (fun _ => .ok []) (.ok { publicKeyB64 := "", secretKeyB64 := "" })
    (fun _ _ _ _ => none) (fun _ => .ok 0) "x").2.1 rfl

/-- C8: round-trip identity.  For every plaintext object, every ephemeral
keypair and every nonce, the envelope produced by encryptForRecipient
decrypts back to the same object under decryptFromSenderForMe holding the
matching secret key.  The hypotheses are the contracts of the external
collaborators at exactly the values the repository code feeds them: base64
and JSON round-trips, the tweetnacl seal/open inverse law for matching keys,
and the plaintext JSON round-trip. -/
theorem encrypt_decrypt_roundtrip {α : Type}
    (atobFn : String → Except Unit String)
    (jsonParseEnv : String → Except Unit Envelope)
    (b64dec : String → Except Unit (List Nat))
    (localKeypair : Except Unit KpB64)
    (naclBoxSeal : List Nat → List Nat → List Nat → List Nat → List Nat)
    (naclBoxOpen : List Nat → List Nat → List Nat → List Nat → Option (List Nat))
    (ptEncode : α → List Nat) (ptDecode : List Nat → Except Unit α)
    (stringifyEnv : Envelope → String) (btoaFn : String → String)
    (u8ToB64f : List Nat → String)
    (ephPk ephSk nonce : List Nat)
    (recipientPubB64 : String) (recipientPk : List Nat)
    (kp : KpB64) (sk : List Nat) (obj : α)
    (hpk : b64dec recipientPubB64 = .ok recipientPk)
    (hatob : atobFn (btoaFn (stringifyEnv (builtEnvelope naclBoxSeal ptEncode
        u8ToB64f ephPk ephSk nonce recipientPk obj))) =
      .ok (stringifyEnv (builtEnvelope naclBoxSeal ptEncode
        u8ToB64f ephPk ephSk nonce recipientPk obj)))
    (hjson : jsonParseEnv (stringifyEnv (builtEnvelope naclBoxSeal ptEncode
        u8ToB64f ephPk ephSk nonce recipientPk obj)) =
      .ok (builtEnvelope naclBoxSeal ptEncode
        u8ToB64f ephPk ephSk nonce recipientPk obj))
    (hepk : b64dec (u8ToB64f ephPk) = .ok ephPk)
    (hnonce : b64dec (u8ToB64f nonce) = .ok nonce)
    (hct : b64dec (u8ToB64f (sealedCt naclBoxSeal ptEncode nonce recipientPk
        ephSk obj)) =
      .ok (sealedCt naclBoxSeal ptEncode nonce recipientPk ephSk obj))
    (hkp : localKeypair = .ok kp)
    (hsk : b64dec kp.secretKeyB64 = .ok sk)
    (hopen : naclBoxOpen (sealedCt naclBoxSeal ptEncode nonce recipientPk
        ephSk obj) nonce ephPk sk = some (ptEncode obj))
    (hpt : ptDecode (ptEncode obj) = .ok obj) :
    encryptForRecipient b64dec naclBoxSeal ptEncode stringifyEnv btoaFn
        u8ToB64f ephPk ephSk nonce recipientPubB64 obj =
      .ok (btoaFn (stringifyEnv (builtEnvelope naclBoxSeal ptEncode
        u8ToB64f ephPk ephSk nonce recipientPk obj))) ∧
    decryptFromSenderForMe atobFn jsonParseEnv b64dec localKeypair
        naclBoxOpen ptDecode
        (btoaFn (stringifyEnv (builtEnvelope naclBoxSeal ptEncode
          u8ToB64f ephPk ephSk nonce recipientPk obj))) = some obj := by
  have hbody : decryptBody atobFn jsonParseEnv b64dec localKeypair
      naclBoxOpen ptDecode
      (btoaFn (stringifyEnv (builtEnvelope naclBoxSeal ptEncode
        u8ToB64f ephPk ephSk nonce recipientPk obj))) = .ok (some obj) := by
    rw [decryptBody]
    simp only [hatob, except_bind_ok, hjson]
    rw [if_neg (by simp [builtEnvelope])]
    simp only [builtEnvelope]
    simp only [hepk, except_bind_ok, hnonce, hct, hkp, hsk, hopen]
    show (do
      let result ← ptDecode (ptEncode obj)
      pure (some result) : Except Unit (Option α)) = .ok (some obj)
    rw [hpt, except_bind_ok]
    rfl
  constructor
  · rw [encryptForRecipient]
    simp only [hpk, except_bind_ok]
    rfl
  · rw [decryptFromSenderForMe, hbody]

/-- C8 witness: a degenerate but fully concrete instantiation of the
external primitives satisfying all the contracts; the envelope round-trips
and decryption recovers the plaintext object 5. -/
theorem encrypt_decrypt_roundtrip_witness :
    encryptForRecipient (fun _ => .ok []) (fun _ _ _ _ => [])
        (fun _ : Nat => []) (fun _ => "E") (fun s => s) (fun _ => "u")
        [] [] [] "u" 5 = .ok ("E") ∧
    decryptFromSenderForMe (fun s => .ok s)
        (fun _ => .ok { v := 1, epk := "u", n := "u", ct := "u" })
        (fun _ => .ok []) (.ok { publicKeyB64 := "u", secretKeyB64 := "u" })
        (fun _ _ _ _ => some []) (fun _ => .ok 5) "E" = some 5 :=
  encrypt_decrypt_roundtrip (fun s => .ok s)
    (fun _ => .ok { v := 1, epk := "u", n := "u", ct := "u" })
    (fun _ => .ok []) (.ok { publicKeyB64 := "u", secretKeyB64 := "u" })
    (fun _ _ _ _ => []) (fun _ _ _ _ => some [])
    (fun _ : Nat => []) (fun _ => .ok 5)
    (fun _ => "E") (fun s => s) (fun _ => "u")
    [] [] [] "u" [] { publicKeyB64 := "u", secretKeyB64 := "u" } [] 5
    rfl rfl rfl rfl rfl rfl rfl rfl rfl rfl

/-! ## Claim theorems: keypair validation -/

theorem storedKeypair_invariant
    (stored : Option String)
    (jsonParseStored : String → Except Unit StoredShape)
    (b64dec : String → Except Unit (List Nat)) (kp : KpB64)
    (h : storedKeypair stored jsonParseStored b64dec = some kp) :
    (∃ dp, b64dec kp.publicKeyB64 = .ok dp ∧ dp.length = 32) ∧
    (∃ ds, b64dec kp.secretKeyB64 = .ok ds ∧ ds.length = 32) := by
  unfold storedKeypair at h
  split at h
  · cases h
  split at h
  · cases h
  split at h
  · split at h
    · split at h
      · split at h
        · rename_i dp ds hbp hbs hlen
          obtain rfl := Option.some.inj h
          exact ⟨⟨dp, hbp, hlen.1⟩, ⟨ds, hbs, hlen.2⟩⟩
        · cases h
      · cases h
    · cases h
  · cases h

theorem identityKeypair_invariant
    (identityPrivKey : Option Nat)
    (naclFromSecretKey : List Nat → List Nat × List Nat)
    (u8ToB64f : List Nat → String)
    (b64dec : String → Except Unit (List Nat)) (kp : KpB64)
    (h : identityKeypair identityPrivKey naclFromSecretKey u8ToB64f b64dec =
      some kp) :
    (∃ dp, b64dec kp.publicKeyB64 = .ok dp ∧ dp.length = 32) ∧
    (∃ ds, b64dec kp.secretKeyB64 = .ok ds ∧ ds.length = 32) := by
  unfold identityKeypair at h
  split at h
  · cases h
  split at h
  · split at h
    · split at h
      · rename_i vp vs hbp hbs hlen
        obtain rfl := Option.some.inj h
        exact ⟨⟨vp, hbp, hlen.1⟩, ⟨vs, hbs, hlen.2⟩⟩
      · cases h
    · cases h
  · cases h

theorem freshKeypair_invariant
    (freshKp : List Nat × List Nat)
    (u8ToB64f : List Nat → String)
    (b64dec : String → Except Unit (List Nat)) (kp : KpB64)
    (h : freshKeypair freshKp u8ToB64f b64dec = .ok kp) :
    (∃ dp, b64dec kp.publicKeyB64 = .ok dp ∧ dp.length = 32) ∧
    (∃ ds, b64dec kp.secretKeyB64 = .ok ds ∧ ds.length = 32) := by
  unfold freshKeypair at h
  split at h
  · split at h
    · cases h
    · rename_i vp vs hbp hbs hlen
      obtain rfl := Except.ok.inj h
      push_neg at hlen
      exact ⟨⟨vp, hbp, hlen.1⟩, ⟨vs, hbs, hlen.2⟩⟩
  · cases h

/-- C9: every keypair actually returned by ensureValidKeypair, whether taken
from storage, derived from the identity scalar, or freshly generated as the
fallback, has publicKeyB64 and secretKeyB64 fields that base64-decode to
exactly 32 bytes; a stored keypair violating the invariant is never
returned, since the stored branch yields a result only after the length
check passes. -/
theorem ensureValidKeypair_invariant
    (stored : Option String)
    (jsonParseStored : String → Except Unit StoredShape)
    (b64dec : String → Except Unit (List Nat))
    (identityPrivKey : Option Nat)
    (naclFromSecretKey : List Nat → List Nat × List Nat)
    (freshKp : List Nat × List Nat)
    (u8ToB64f : List Nat → String) (kp : KpB64)
    (h : ensureValidKeypair stored jsonParseStored b64dec identityPrivKey
        naclFromSecretKey freshKp u8ToB64f = .ok kp) :
    (∃ dp, b64dec kp.publicKeyB64 = .ok dp ∧ dp.length = 32) ∧
    (∃ ds, b64dec kp.secretKeyB64 = .ok ds ∧ ds.length = 32) := by
  unfold ensureValidKeypair at h
  split at h
  · rename_i kp1 hs
    obtain rfl := Except.ok.inj h
    exact storedKeypair_invariant stored jsonParseStored b64dec kp1 hs
  · split at h
    · rename_i kp2 hi
      obtain rfl := Except.ok.inj h
      exact identityKeypair_invariant identityPrivKey naclFromSecretKey
        u8ToB64f b64dec kp2 hi
    · exact freshKeypair_invariant freshKp u8ToB64f b64dec kp h

/-- C9 witness: a well-formed stored keypair (both fields decoding to 32
bytes) is returned and satisfies the invariant. -/
theorem ensureValidKeypair_invariant_witness :
    (∃ dp, (Except.ok (List.replicate 32 0) : Except Unit (List Nat)) =
        .ok dp ∧ dp.length = 32) ∧
    (∃ ds, (Except.ok (List.replicate 32 0) : Except Unit (List Nat)) =
        .ok ds ∧ ds.length = 32) :=
  ensureValidKeypair_invariant (some ("s"))
    (fun _ => .ok { publicKeyB64 := some ("P"), secretKeyB64 := some ("S") })
    (fun _ => .ok (List.replicate 32 0)) none (fun _ => ([], []))
    ([], []) (fun _ => "")
    { publicKeyB64 := "P", secretKeyB64 := "S" } rfl

/-! ## Claim theorems: ledger reconciler -/

theorem length_filterMap_eq_countP {α β : Type} (f : α → Option β)
    (l : List α) :
    (l.filterMap f).length = l.countP (fun a => (f a).isSome) := by
  induction l with
  | nil => rfl
  | cons a t ih =>
    rw [List.filterMap_cons, List.countP_cons]
    rcases hf : f a with _ | b <;> simp [hf, ih]

theorem decryptMessagesList_eq_filterMap {RawNote Note : Type}
    (decryptFn : String → Option (DPayload RawNote))
    (parseNote : RawNote → Except Unit Note) (msgs : List DMsg) :
    decryptMessagesList decryptFn parseNote msgs =
      msgs.filterMap (messageYield decryptFn parseNote) := by
  induction msgs with
  | nil => rfl
  | cons m rest ih =>
    rw [decryptMessagesList, List.filterMap_cons, ih]
    rcases hd : decryptFn m.ciphertext with _ | payload <;>
      simp only [messageYield, hd]
    rcases hn : payload.note with _ | raw <;> simp only [hn]
    rcases hp : parseNote raw with e | note <;> simp only [hp]

/-- C7: decryptMessages processes every fetched message: the result is
exactly the in-order list of per-message successes (one note per message
that decrypts, carries a note field and parses), its length counts the
successful messages, a corrupted message anywhere in the batch is skipped
without affecting the rest, and a batch of N successful messages plus one
corrupted message yields exactly N notes; the per-message catch means no
failure ever aborts the loop. -/
theorem decryptMessages_resilient {RawNote Note : Type}
    (decryptFn : String → Option (DPayload RawNote))
    (parseNote : RawNote → Except Unit Note)
    (msgs pre post : List DMsg) (bad : DMsg) :
    decryptMessagesList decryptFn parseNote msgs =
      msgs.filterMap (messageYield decryptFn parseNote) ∧
    (decryptMessagesList decryptFn parseNote msgs).length =
      msgs.countP (fun m => (messageYield decryptFn parseNote m).isSome) ∧
    (messageYield decryptFn parseNote bad = none →
      decryptMessagesList decryptFn parseNote (pre ++ bad :: post) =
        decryptMessagesList decryptFn parseNote (pre ++ post)) ∧
    ((∀ m ∈ pre ++ post, (messageYield decryptFn parseNote m).isSome) →
      messageYield decryptFn parseNote bad = none →
      (decryptMessagesList decryptFn parseNote (pre ++ bad :: post)).length =
        pre.length + post.length) := by
  have hbase : ∀ l, decryptMessagesList decryptFn parseNote l =
      l.filterMap (messageYield decryptFn parseNote) :=
    decryptMessagesList_eq_filterMap decryptFn parseNote
  have hskip : messageYield decryptFn parseNote bad = none →
      decryptMessagesList decryptFn parseNote (pre ++ bad :: post) =
        decryptMessagesList decryptFn parseNote (pre ++ post) := by
    intro hbad
    rw [hbase, hbase, List.filterMap_append, List.filterMap_append,
      List.filterMap_cons, hbad]
  refine ⟨hbase msgs, ?_, hskip, ?_⟩
  · rw [hbase]
    exact length_filterMap_eq_countP _ msgs
  · intro hgood hbad
    rw [hskip hbad, hbase, length_filterMap_eq_countP]
    have : (pre ++ post).countP
        (fun m => (messageYield decryptFn parseNote m).isSome) =
        (pre ++ post).length := by
      rw [List.countP_eq_length]
      intro a ha
      simpa using hgood a ha
    rw [this, List.length_append]

/-- C7 witness: two good messages around one corrupted message yield
exactly two notes. -/
theorem decryptMessages_resilient_witness :
    (decryptMessagesList (fun s => if s = "bad" then none
        else some { note := some 0 })
      (fun r : Nat => .ok r)
      ([{ id := 1, ciphertext := "g1" }] ++
        { id := 3, ciphertext := "bad" } :: [{ id := 2, ciphertext := "g2" }])).length =
      1 + 1 :=
  (decryptMessages_resilient (fun s => if s = "bad" then none
      else some { note := some 0 })
    (fun r : Nat => .ok r) []
    [{ id := 1, ciphertext := "g1" }] [{ id := 2, ciphertext := "g2" }]
    { id := 3, ciphertext := "bad" }).2.2.2 (by decide) (by decide)

/-- C10: when zero notes decrypt from the fetched messages (including the
case of no messages at all), fetchAccountOverview returns exactly the empty
overview record with balance 0 and empty note list, and the result does not
depend on the external overview service (here: identical for any two
computeOverviewFn), i.e. the service is not consulted. -/
theorem fetchAccountOverview_empty {RawNote Note : Type}
    (decryptFn : String → Option (DPayload RawNote))
    (parseNote : RawNote → Except Unit Note)
    (f g : List Note → Overview Note)
    (messages : Option (List DMsg))
    (h : decryptMessagesList decryptFn parseNote (messages.getD []) = []) :
    fetchAccountOverview decryptFn parseNote f messages =
      emptyOverview Note ∧
    fetchAccountOverview decryptFn parseNote f messages =
      fetchAccountOverview decryptFn parseNote g messages := by
  have he : ∀ k : List Note → Overview Note,
      fetchAccountOverview decryptFn parseNote k messages =
        emptyOverview Note := by
    intro k
    rw [fetchAccountOverview]
    simp [h]
  exact ⟨he f, by rw [he f, he g]⟩

/-- C10 witness: one undecryptable message yields zero notes and the empty
overview, identically for two different overview services. -/
theorem fetchAccountOverview_empty_witness :
    fetchAccountOverview (fun _ => none) (fun r : Nat => .ok r)
        (fun _ => { shieldedBalance := 1, spendableNotes := 1,
                    totalNotes := 1, notes := [] })
        (some [{ id := 1, ciphertext := "x" }]) = emptyOverview Nat ∧
    fetchAccountOverview (fun _ => none) (fun r : Nat => .ok r)
        (fun _ => { shieldedBalance := 1, spendableNotes := 1,
                    totalNotes := 1, notes := [] })
        (some [{ id := 1, ciphertext := "x" }]) =
      fetchAccountOverview (fun _ => none) (fun r : Nat => .ok r)
        (fun _ => { shieldedBalance := 2, spendableNotes := 2,
                    totalNotes := 2, notes := [] })
        (some [{ id := 1, ciphertext := "x" }]) :=
  fetchAccountOverview_empty (fun _ => none) (fun r : Nat => .ok r)
    (fun _ => { shieldedBalance := 1, spendableNotes := 1,
                totalNotes := 1, notes := [] })
    (fun _ => { shieldedBalance := 2, spendableNotes := 2,
                totalNotes := 2, notes := [] })
    (some [{ id := 1, ciphertext := "x" }]) rfl

end CipherPayUI
